import Mathlib

/-!
Verification of the two UI components of the addons-frontend repository:
the collection-editing form controller (`CollectionManager`) and the add-on
install button (`InstallButton`).  Each definition is a shallow embedding of
the corresponding source function; external collaborators (HTML-entity
decoding, filter-to-query conversion, icon lookup, the compatibility
checker) are taken as function parameters, mirroring their injection in the
source.
-/

namespace CollectionManager

/-- Constant `MESSAGE_RESET_TIME` from the source. -/
def MESSAGE_RESET_TIME : Nat := 5000

/-- The `addonAddedStatus` values (`ADDON_ADDED_STATUS_PENDING` /
`ADDON_ADDED_STATUS_SUCCESS`); `null` is modelled by `Option`. -/
inductive AddonAddedStatus where
  | pending
  | success
deriving DecidableEq, Repr

/-- The collection entity as read by the component: `id`, `authorUsername`,
`slug`, `name`, `description` (nullable), `defaultLocale`. -/
structure Collection where
  id : Nat
  authorUsername : String
  slug : String
  name : String
  description : Option String
  defaultLocale : String
deriving DecidableEq, Repr

/-- The component's local edit-buffer state (`State` in the source).
JavaScript `null`/`undefined` string fields are modelled by `Option`. -/
structure ManagerState where
  addonAddedStatus : Option AddonAddedStatus
  customSlug : Bool
  description : Option String
  name : Option String
  slug : Option String
deriving DecidableEq, Repr

/-- The props the modelled behaviour depends on. -/
structure ManagerProps where
  collection : Option Collection
  creating : Bool
  hasAddonBeenAdded : Bool
deriving DecidableEq, Repr

/-- The three text fields reachable through `onTextInput` (the `name`
attribute of the input element). -/
inductive Field where
  | name
  | slug
  | description
deriving DecidableEq, Repr

/-- JavaScript `String.prototype.trim`: strip leading and trailing
whitespace. -/
def jsTrim (s : String) : String :=
  String.mk
    (((s.data.dropWhile Char.isWhitespace).reverse.dropWhile
        Char.isWhitespace).reverse)

/-- JavaScript `String.prototype.split` with a single-character separator
class, on an exploded string: splits at every character satisfying `p`,
keeping empty segments (so `"a,,b".split(',')` gives `["a","","b"]`). -/
def charSplit (p : Char → Bool) : List Char → List String
  | [] => [""]
  | c :: cs =>
    if p c then
      "" :: charSplit p cs
    else
      match charSplit p cs with
      | [] => [String.mk [c]]
      | t :: ts => String.mk (c :: t.data) :: ts

/-- The slug derivation of `onTextInput`:
`trimmedValue.split(/[^A-Za-z0-9]/).filter((s) => s !== '').join('-')`. -/
def deriveSlug (value : String) : String :=
  String.intercalate "-"
    ((charSplit (fun c => !c.isAlphanum) (jsTrim value).toList).filter (· ≠ ""))

/-- Spec-side formulation of the slug derivation: collect the maximal runs
of alphanumeric characters (equivalently, split on every maximal run of
non-alphanumeric characters and keep the non-empty segments). -/
def maximalRunsAux (p : Char → Bool) (cur : List Char) : List Char → List String
  | [] => if cur = [] then [] else [String.mk cur.reverse]
  | c :: cs =>
    if p c then
      if cur = [] then maximalRunsAux p [] cs
      else String.mk cur.reverse :: maximalRunsAux p [] cs
    else maximalRunsAux p (c :: cur) cs

/-- The maximal runs of characters not satisfying the separator predicate
`p`, in order. -/
def maximalRuns (p : Char → Bool) (cs : List Char) : List String :=
  maximalRunsAux p [] cs

/-- Spec-side slug derivation: join the maximal alphanumeric runs of the
trimmed name with `-`. -/
def specDeriveSlug (value : String) : String :=
  String.intercalate "-" (maximalRuns (fun c => !c.isAlphanum) (jsTrim value).toList)

/-- Source `propsToState`: the edit buffer derived from the incoming collection;
`decodeName`/`decodeDescription` stand for the external
`decodeHtmlEntities`. -/
def propsToState (decodeName : String → Option String)
    (decodeDescription : Option String → Option String)
    (collection : Option Collection) : ManagerState :=
  { addonAddedStatus := none
    customSlug := false
    description :=
      match collection with
      | none => none
      | some c => decodeDescription c.description
    name :=
      match collection with
      | none => none
      | some c => decodeName c.name
    slug :=
      match collection with
      | none => none
      | some c => some c.slug }

/-- The fallback `this.setState({ [name]: value })` of `onTextInput`. -/
def setField (st : ManagerState) : Field → String → ManagerState
  | Field.name, v => { st with name := some v }
  | Field.slug, v => { st with slug := some v }
  | Field.description, v => { st with description := some v }

/-- Source `onTextInput`: a `null`/`undefined` value is ignored; while creating,
a name edit with no custom slug recomputes the slug, and a slug edit with a
non-empty trimmed value sets the `customSlug` flag. -/
def onTextInput (creating : Bool) (st : ManagerState) (field : Field)
    (value : Option String) : ManagerState :=
  match value with
  | none => st
  | some v =>
    let trimmedValue := jsTrim v
    if creating = true ∧ field = Field.name ∧ st.customSlug = false then
      { st with slug := some (deriveSlug v), name := some v }
    else if creating = true ∧ field = Field.slug ∧ trimmedValue ≠ "" then
      { st with customSlug := true, slug := some v }
    else
      setField st field v

/-- Source `componentWillReceiveProps`: resets the buffer via `propsToState` only
when the incoming collection's id differs from the current one; tracks the
`hasAddonBeenAdded` flag; the returned `Bool` says whether the delayed
message-reset timer is scheduled (`hasAddonBeenAddedNew && hasAddonBeenAddedNew
!== hasAddonBeenAdded`). -/
def componentWillReceiveProps (decodeName : String → Option String)
    (decodeDescription : Option String → Option String)
    (oldProps newProps : ManagerProps) (st : ManagerState) :
    ManagerState × Bool :=
  let existingId : Option Nat := oldProps.collection.map (fun c => c.id)
  let st1 :=
    match newProps.collection with
    | some c =>
      if some c.id ≠ existingId then
        propsToState decodeName decodeDescription newProps.collection
      else st
    | none => st
  let st2 :=
    if oldProps.hasAddonBeenAdded ≠ newProps.hasAddonBeenAdded then
      { st1 with
        addonAddedStatus :=
          if newProps.hasAddonBeenAdded then some AddonAddedStatus.success
          else none }
    else st1
  (st2,
   newProps.hasAddonBeenAdded &&
     !(newProps.hasAddonBeenAdded == oldProps.hasAddonBeenAdded))

/-- The edit-buffer fields proper (everything except the transient
`addonAddedStatus`). -/
def editFields (st : ManagerState) :
    Option String × Option String × Option String × Bool :=
  (st.name, st.slug, st.description, st.customSlug)

/-- Blankness test `!(s && s.trim().length)` for a nullable string field. -/
def isBlankField (s : Option String) : Bool :=
  match s with
  | none => true
  | some v => (jsTrim v).length = 0

/-- Source `formIsUnchanged` from `render`: the buffer equals the persisted
collection, where a `null` persisted description also matches a falsy
buffer description. -/
def formIsUnchanged (collection : Option Collection) (st : ManagerState) :
    Bool :=
  match collection with
  | none => false
  | some c =>
    (st.name == some c.name) && (st.slug == some c.slug) &&
      ((st.description == c.description) ||
        (c.description == none &&
          (st.description == none || st.description == some "")))

/-- Source `formIsDisabled` from `render`. -/
def formIsDisabled (collection : Option Collection)
    (creating isCollectionBeingModified : Bool) : Bool :=
  (collection.isNone && !creating) || isCollectionBeingModified

/-- Source `isSubmitDisabled` from `render`. -/
def isSubmitDisabled (collection : Option Collection)
    (creating isCollectionBeingModified : Bool) (st : ManagerState) : Bool :=
  formIsDisabled collection creating isCollectionBeingModified ||
    formIsUnchanged collection st ||
    isBlankField st.name || isBlankField st.slug

/-- Spec-side submit-disable predicate, following the claim's words: the
"unchanged" disjunct requires the buffer's `{name, slug, description}` to
strictly equal the persisted collection's values. -/
def specSubmitDisabled (collection : Option Collection)
    (creating isCollectionBeingModified : Bool) (st : ManagerState) : Bool :=
  (collection.isNone && !creating) || isCollectionBeingModified ||
    (match collection with
     | none => false
     | some c =>
       (st.name == some c.name) && (st.slug == some c.slug) &&
         (st.description == c.description)) ||
    isBlankField st.name || isBlankField st.slug

/-- The navigation / error-handler effects of `onCancel`, in order. -/
inductive NavEffect where
  | goBack
  | clearError
  | push (pathname : String) (filtersQuery : String)
deriving DecidableEq, Repr

/-- Source `onCancel`: in create mode it first goes back in history; then the three
`invariant` calls fail fast when collection, clientApp, or siteLang is
missing; otherwise it resets the buffer (`propsToState`), clears the error
handler, and pushes the collection's canonical URL with the filters
converted to query parameters (`convertFiltersToQueryParams`, external,
passed as `convert`). -/
def onCancel (decodeName : String → Option String)
    (decodeDescription : Option String → Option String)
    (convert : String → String)
    (clientApp : Option String) (collection : Option Collection)
    (creating : Bool) (filters : String) (siteLang : Option String) :
    List NavEffect × Except String ManagerState :=
  let pre := if creating then [NavEffect.goBack] else []
  match collection with
  | none => (pre, Except.error "A collection must be loaded before you can cancel")
  | some c =>
    match clientApp with
    | none => (pre, Except.error "A clientApp must be loaded before you can cancel")
    | some app =>
      match siteLang with
      | none => (pre, Except.error "A siteLang must be loaded before you can cancel")
      | some lang =>
        (pre ++
          [NavEffect.clearError,
           NavEffect.push
             ("/" ++ lang ++ "/" ++ app ++ "/collections/" ++
               c.authorUsername ++ "/" ++ c.slug ++ "/")
             (convert filters)],
         Except.ok (propsToState decodeName decodeDescription collection))

/-- The component instance together with the host's timer table: `timers`
holds the pending one-shot timeouts as `(id, delay)` pairs, `timeoutId` is
the component's `this.timeout` field, `invoked` records the callbacks the
host has actually run, and `nextId` is the next fresh timeout id. -/
structure World where
  props : ManagerProps
  st : ManagerState
  timeoutId : Option Nat
  mounted : Bool
  timers : List (Nat × Nat)
  nextId : Nat
  invoked : List Nat
deriving DecidableEq, Repr

/-- The ids of the pending timeouts. -/
def pendingIds (w : World) : List Nat :=
  w.timers.map Prod.fst

/-- Lifecycle events delivered to a mounted component: new props, the host
firing a pending timeout, and teardown (`componentWillUnmount`). -/
inductive MEvent where
  | receiveProps (p : ManagerProps)
  | fire (id : Nat)
  | unmount
deriving DecidableEq, Repr

/-- One lifecycle step.  `receiveProps` runs `componentWillReceiveProps`
and, on a false-to-true `hasAddonBeenAdded` transition, schedules
`resetMessageStatus` after `MESSAGE_RESET_TIME`, remembering the id in
`this.timeout`.  `fire` runs a pending timeout: the id is consumed, the
callback is invoked, and (only while mounted) `setState` clears
`addonAddedStatus`.  `unmount` clears the timeout recorded in
`this.timeout`. -/
def step (decodeName : String → Option String)
    (decodeDescription : Option String → Option String)
    (w : World) : MEvent → World
  | MEvent.receiveProps p =>
    if w.mounted then
      let r :=
        componentWillReceiveProps decodeName decodeDescription w.props p w.st
      if r.2 then
        { w with
          props := p
          st := r.1
          timers := w.timers ++ [(w.nextId, MESSAGE_RESET_TIME)]
          timeoutId := some w.nextId
          nextId := w.nextId + 1 }
      else
        { w with props := p, st := r.1 }
    else w
  | MEvent.fire i =>
    if w.timers.any (fun t => t.1 = i) then
      { w with
        timers := w.timers.filter (fun t => t.1 ≠ i)
        invoked := w.invoked ++ [i]
        st :=
          if w.mounted then { w.st with addonAddedStatus := none } else w.st }
    else w
  | MEvent.unmount =>
    if w.mounted then
      { w with
        mounted := false
        timers :=
          match w.timeoutId with
          | some i => w.timers.filter (fun t => t.1 ≠ i)
          | none => w.timers }
    else w

/-- Run a sequence of lifecycle events. -/
def runTrace (decodeName : String → Option String)
    (decodeDescription : Option String → Option String)
    (w : World) : List MEvent → World
  | [] => w
  | e :: es => runTrace decodeName decodeDescription
      (step decodeName decodeDescription w e) es

/-- Timer-system well-formedness: pending and invoked ids are below
`nextId`, no id is invoked twice, and a pending id has not been invoked. -/
structure WF (w : World) : Prop where
  pending_lt : ∀ i ∈ pendingIds w, i < w.nextId
  invoked_lt : ∀ i ∈ w.invoked, i < w.nextId
  invoked_nodup : w.invoked.Nodup
  pending_not_invoked : ∀ i ∈ pendingIds w, i ∉ w.invoked

end CollectionManager

namespace InstallButton

/-- The add-on type constants used by the component (`ADDON_TYPE_THEME`,
`ADDON_TYPE_OPENSEARCH`, ...); distinct opaque string constants in the
source, modelled as an enumeration. -/
inductive AddonType where
  | extension
  | theme
  | opensearch
  | staticTheme
  | lang
  | dict
deriving DecidableEq, Repr

/-- The install-status constants (`DISABLED`, `DOWNLOADING`, ...). -/
inductive InstallStatus where
  | DISABLED
  | DOWNLOADING
  | ENABLED
  | ENABLING
  | INSTALLED
  | INSTALLING
  | UNINSTALLING
  | UNINSTALLED
  | UNKNOWN
deriving DecidableEq, Repr

/-- A current-version file: download `url` and content `hash`. -/
structure AddonFile where
  url : String
  hash : String
deriving DecidableEq, Repr

/-- Field `addon.current_version`: the list of per-platform files. -/
structure AddonVersion where
  files : List AddonFile
deriving DecidableEq, Repr

/-- The add-on entity as used by the component. -/
structure Addon where
  guid : String
  name : String
  slug : String
  type : AddonType
  current_version : Option AddonVersion
deriving DecidableEq, Repr

/-- Computation `installURL.split('?')[0]`: the install URL with any query string
stripped. -/
def stripQueryString (installURL : String) : String :=
  String.mk (installURL.data.takeWhile (fun c => c ≠ '?'))

/-- JavaScript `String.prototype.startsWith`: does `s` start with `pre`? -/
def jsStartsWith (s pre : String) : Bool :=
  pre.data.isPrefixOf s.data

/-- The `for (const file of addon.current_version.files)` loop of
`getFileHash`: the hash of the first file whose URL starts with `urlKey`. -/
def findMatchingHash (urlKey : String) : List AddonFile → Option String
  | [] => none
  | f :: fs =>
    if jsStartsWith f.url urlKey then some f.hash
    else findMatchingHash urlKey fs

/-- The warning message logged by `getFileHash` on a lookup miss. -/
def noFileHashWarning (addon : Addon) (installURL : String) : String :=
  "No file hash found for addon \"" ++ addon.slug ++ "\", installURL \"" ++
    installURL ++ "\" (as \"" ++ stripQueryString installURL ++ "\")"

/-- The non-throwing outcome of `getFileHash`: the hash (or `undefined`)
and the warnings logged on the way. -/
structure HashResult where
  hash : Option String
  warnings : List String
deriving DecidableEq, Repr

/-- Source `getFileHash`: throws when the `addon` argument is missing or the
`installURL` argument is empty; otherwise returns the hash of the first
current-version file whose URL has the query-stripped install URL as a
prefix, or `undefined` after logging a warning. -/
def getFileHash (addon : Option Addon) (installURL : String) :
    Except String HashResult :=
  match addon with
  | none => Except.error "The addon parameter cannot be empty"
  | some a =>
    if installURL = "" then
      Except.error "The installURL parameter cannot be empty"
    else
      let urlKey := stripQueryString installURL
      let fromFiles :=
        match a.current_version with
        | some v => findMatchingHash urlKey v.files
        | none => none
      match fromFiles with
      | some h => Except.ok { hash := some h, warnings := [] }
      | none =>
        Except.ok { hash := none, warnings := [noFileHashWarning a installURL] }

/-- Analytics events sent through `_tracking.sendEvent`, keyed by the
add-on's name and type. -/
inductive TrackEvent where
  | installStarted (addonName : String) (type : AddonType)
  | installSucceeded (addonName : String) (type : AddonType)
deriving DecidableEq, Repr

/-- The payload handed to `InstallTrigger.install` (`Hash`, `IconURL`,
`URL`). -/
structure InstallPayload where
  hash : Option String
  iconURL : String
  url : String
deriving DecidableEq, Repr

/-- What a click on the extension control does besides tracking: whether
default navigation was prevented, the `InstallTrigger.install` call made
(if any), and whether the click falls through as a plain link. -/
structure ExtOutcome where
  prevented : Bool
  call : Option InstallPayload
  linkFallthrough : Bool
deriving DecidableEq, Repr

/-- Source `installExtension`: always tracks "install started"; without the
`InstallTrigger` capability it returns `true` to let the link serve the
file; with it, it prevents default navigation and calls
`InstallTrigger.install` with the resolved hash, icon URL
(`getAddonIconUrl`, external, passed as `getIcon`), and install URL. -/
def installExtension (hasInstallTrigger : Bool) (getIcon : Addon → String)
    (addon : Addon) (href : String) :
    List TrackEvent × Except String ExtOutcome :=
  let events := [TrackEvent.installStarted addon.name addon.type]
  if !hasInstallTrigger then
    (events, Except.ok { prevented := false, call := none, linkFallthrough := true })
  else
    match getFileHash (some addon) href with
    | Except.error e => (events, Except.error e)
    | Except.ok hr =>
      (events,
       Except.ok
         { prevented := true
           call := some { hash := hr.hash, iconURL := getIcon addon, url := href }
           linkFallthrough := false })

/-- The `InstallTrigger.install` completion callback: tracks "install
succeeded" exactly on status code 0. -/
def installTriggerCallback (addonName : String) (type : AddonType)
    (status : Int) : List TrackEvent :=
  if status = 0 then [TrackEvent.installSucceeded addonName type] else []

/-- The action dispatched by `uninstallAddon` (`{ guid, installURL, name,
type }`). -/
structure UninstallDispatch where
  guid : String
  installURL : String
  name : String
  type : AddonType
deriving DecidableEq, Repr

/-- Source `uninstallAddon`: dispatches the uninstall action with the add-on's
guid, name, type and the control's href, and prevents default navigation
(the returned `Bool`). -/
def uninstallAddon (addon : Addon) (href : String) :
    UninstallDispatch × Bool :=
  ({ guid := addon.guid, installURL := href, name := addon.name,
     type := addon.type },
   true)

/-- The click handler installed on the rendered button. -/
inductive ClickHandler where
  | preventDefaultOnly
  | uninstallH
  | installThemeH
  | installOpenSearchH
  | installExtensionH
deriving DecidableEq, Repr

/-- The rendered button's props (plus the disabled CSS modifier computed
from the compatibility check). -/
structure ButtonRender where
  buttonType : String
  href : String
  onClick : ClickHandler
  dataBrowsertheme : Bool
  prependClientApp : Option Bool
  prependLang : Option Bool
  disabledStyle : Bool
deriving DecidableEq, Repr

/-- What `render` produces: nothing (opensearch on the server), the
loading animation, or a button. -/
inductive Rendered where
  | nothing
  | loading
  | button (b : ButtonRender)
deriving DecidableEq, Repr

/-- Source `render`: suppresses opensearch buttons on the server; disables the
control when the injected compatibility check (`_getClientCompatibility`,
passed as `getCompat`) fails; picks the uninstall / theme / opensearch /
extension handler; and shows the loading animation for in-flight
statuses.  `findURL` is the result of the external `findInstallURL`. -/
def render (serverConfig : Bool)
    (getCompat : Addon → String → String → Bool)
    (clientApp userAgentInfo : String) (findURL : String)
    (addon : Addon) (status : InstallStatus) : Rendered :=
  if addon.type = AddonType.opensearch ∧ serverConfig = true then
    Rendered.nothing
  else
    let compatible := getCompat addon clientApp userAgentInfo
    let buttonIsDisabled := !compatible
    let bp0 : ButtonRender :=
      { buttonType := "action"
        href := findURL
        onClick := ClickHandler.preventDefaultOnly
        dataBrowsertheme := false
        prependClientApp := none
        prependLang := none
        disabledStyle := buttonIsDisabled }
    let bp :=
      if buttonIsDisabled = false then
        if status ∈ [InstallStatus.DISABLED, InstallStatus.ENABLED,
            InstallStatus.INSTALLED] then
          { bp0 with buttonType := "neutral", onClick := ClickHandler.uninstallH }
        else if addon.type = AddonType.theme then
          { bp0 with dataBrowsertheme := true,
                     onClick := ClickHandler.installThemeH }
        else
          { bp0 with
            onClick :=
              if addon.type = AddonType.opensearch then
                ClickHandler.installOpenSearchH
              else ClickHandler.installExtensionH
            prependClientApp := some false
            prependLang := some false }
      else bp0
    if status ∈ [InstallStatus.DOWNLOADING, InstallStatus.ENABLING,
        InstallStatus.INSTALLING, InstallStatus.UNINSTALLING] then
      Rendered.loading
    else
      Rendered.button bp

/-- Whether the render result is a disabled control: disabled styling and a
click handler that only prevents the default navigation. -/
def isDisabledControl : Rendered → Bool
  | Rendered.button b =>
    b.disabledStyle && b.onClick = ClickHandler.preventDefaultOnly
  | _ => false

end InstallButton

namespace CollectionManager

theorem charSplit_ne_nil (p : Char → Bool) (cs : List Char) :
    charSplit p cs ≠ [] := by
  cases cs with
  | nil => simp [charSplit]
  | cons c cs =>
    cases hp : p c with
    | true => simp [charSplit, hp]
    | false =>
      simp only [charSplit, hp]
      cases charSplit p cs <;> simp

theorem string_mk_data (s : String) : String.mk s.data = s := rfl

theorem maximalRunsAux_eq_filter (p : Char → Bool) (cs : List Char) :
    ∀ cur : List Char,
      maximalRunsAux p cur cs =
        (String.mk (cur.reverse ++ ((charSplit p cs).headD "").data) ::
            (charSplit p cs).tail).filter (fun s => s ≠ "") := by
  induction cs with
  | nil =>
    intro cur
    by_cases h : cur = []
    · subst h
      simp [maximalRunsAux, charSplit]
    · have hrev : cur.reverse ≠ [] := by
        simpa using h
      have hmk : String.mk cur.reverse ≠ "" := by
        intro hc
        exact hrev (congrArg String.data hc)
      simp [maximalRunsAux, charSplit, h, hmk]
  | cons c cs ih =>
    intro cur
    obtain ⟨t, ts, hsplit⟩ := List.exists_cons_of_ne_nil (charSplit_ne_nil p cs)
    cases hp : p c with
    | true =>
      have hnil := ih []
      rw [hsplit] at hnil
      simp only [List.headD_cons, List.tail_cons, List.reverse_nil,
        List.nil_append] at hnil
      rw [string_mk_data] at hnil
      by_cases h : cur = []
      · subst h
        simp [maximalRunsAux, charSplit, hp, hnil, hsplit]
      · have hrev : cur.reverse ≠ [] := by
          simpa using h
        have hmk : String.mk cur.reverse ≠ "" := by
          intro hc
          exact hrev (congrArg String.data hc)
        simp [maximalRunsAux, charSplit, hp, hnil, hsplit, h, hmk]
    | false =>
      have hstep := ih (c :: cur)
      rw [hsplit] at hstep
      simp only [List.headD_cons, List.tail_cons, List.reverse_cons] at hstep
      simp only [maximalRunsAux, hp, charSplit, hsplit]
      rw [hstep]
      simp

theorem maximalRuns_eq_filter (p : Char → Bool) (cs : List Char) :
    maximalRuns p cs = (charSplit p cs).filter (fun s => s ≠ "") := by
  unfold maximalRuns
  obtain ⟨t, ts, hsplit⟩ := List.exists_cons_of_ne_nil (charSplit_ne_nil p cs)
  rw [maximalRunsAux_eq_filter, hsplit]
  simp [string_mk_data]

/-- The code's slug derivation (split on every non-alphanumeric character,
drop empty segments, join with `-`) agrees with the spec's formulation
(split on maximal non-alphanumeric runs). -/
theorem deriveSlug_eq_specDeriveSlug (value : String) :
    deriveSlug value = specDeriveSlug value := by
  unfold deriveSlug specDeriveSlug
  rw [maximalRuns_eq_filter]

end CollectionManager

namespace InstallButton

theorem findMatchingHash_first (urlKey : String) (fs1 : List AddonFile)
    (f : AddonFile) (fs2 : List AddonFile)
    (h1 : ∀ g ∈ fs1, jsStartsWith g.url urlKey = false)
    (h2 : jsStartsWith f.url urlKey = true) :
    findMatchingHash urlKey (fs1 ++ f :: fs2) = some f.hash := by
  induction fs1 with
  | nil => simp [findMatchingHash, h2]
  | cons g gs ih =>
    have hg : jsStartsWith g.url urlKey = false := h1 g (by simp)
    simp only [List.cons_append, findMatchingHash, hg]
    simp only [Bool.false_eq_true, if_false]
    exact ih (fun g hmem => h1 g (by simp [hmem]))

theorem findMatchingHash_none (urlKey : String) (fs : List AddonFile)
    (h : ∀ g ∈ fs, jsStartsWith g.url urlKey = false) :
    findMatchingHash urlKey fs = none := by
  induction fs with
  | nil => rfl
  | cons g gs ih =>
    have hg : jsStartsWith g.url urlKey = false := h g (by simp)
    simp only [findMatchingHash, hg, Bool.false_eq_true, if_false]
    exact ih (fun g hmem => h g (by simp [hmem]))

theorem getFileHash_ok_of_ne (a : Addon) (url : String) (h : url ≠ "") :
    ∃ r, getFileHash (some a) url = Except.ok r := by
  unfold getFileHash
  simp only [h, if_false]
  cases hv : a.current_version with
  | none =>
    exact ⟨{ hash := none, warnings := [noFileHashWarning a url] }, by simp⟩
  | some v =>
    cases hf : findMatchingHash (stripQueryString url) v.files with
    | none =>
      exact ⟨{ hash := none, warnings := [noFileHashWarning a url] }, by simp [hf]⟩
    | some hsh =>
      exact ⟨{ hash := some hsh, warnings := [] }, by simp [hf]⟩

end InstallButton

open CollectionManager InstallButton

/-- C1: for every text-input event in create mode on the name field while
`customSlug` is unset, the buffer's slug is recomputed as the
non-alphanumeric-run split of the trimmed name joined with `-` (so
"Foo Bar" yields "Foo-Bar"); a direct slug edit with a non-empty trimmed
value sets `customSlug`, the flag is never cleared by a text input, and
with the flag set a name edit leaves the slug unchanged. -/
theorem claim_C1_slug_autoderivation (st : ManagerState) (v : String)
    (h : st.customSlug = false) :
    (onTextInput true st Field.name (some v)).slug = some (deriveSlug v) ∧
    deriveSlug v = specDeriveSlug v ∧
    deriveSlug "Foo Bar" = "Foo-Bar" ∧
    (∀ st2 v2, jsTrim v2 ≠ "" →
        (onTextInput true st2 Field.slug (some v2)).customSlug = true) ∧
    (∀ st2 f val, st2.customSlug = true →
        (onTextInput true st2 f val).customSlug = true) ∧
    (∀ st2 v2, st2.customSlug = true →
        (onTextInput true st2 Field.name (some v2)).slug = st2.slug) := by
  refine ⟨?_, deriveSlug_eq_specDeriveSlug v, by decide, ?_, ?_, ?_⟩
  · simp [onTextInput, h]
  · intro st2 v2 hv2
    by_cases hc : st2.customSlug = false
    · simp [onTextInput, hc, hv2]
    · simp [onTextInput, hc, hv2]
  · intro st2 f val hc
    cases val with
    | none => simpa [onTextInput] using hc
    | some v2 =>
      cases f with
      | name => simp [onTextInput, hc, setField]
      | slug =>
        by_cases hv2 : jsTrim v2 = "" <;> simp [onTextInput, hc, hv2, setField]
      | description => simp [onTextInput, hc, setField]
  · intro st2 v2 hc
    simp [onTextInput, hc, setField]

theorem claim_C1_slug_autoderivation_witness :
    (onTextInput true ⟨none, false, none, none, none⟩ Field.name
        (some "Foo Bar")).slug = some (deriveSlug "Foo Bar") ∧
    deriveSlug "Foo Bar" = "Foo-Bar" :=
  ⟨(claim_C1_slug_autoderivation ⟨none, false, none, none, none⟩ "Foo Bar" rfl).1,
   (claim_C1_slug_autoderivation ⟨none, false, none, none, none⟩ "Foo Bar" rfl).2.2.1⟩

/-- C10: `getFileHash` throws when the addon argument is missing or the
install URL is empty; with both present and non-empty it returns normally
(a hash or `undefined`). -/
theorem claim_C10_getFileHash_preconditions (a : Addon) (url : String)
    (h : url ≠ "") :
    (∀ u, getFileHash none u =
        Except.error "The addon parameter cannot be empty") ∧
    (∀ b, getFileHash (some b) "" =
        Except.error "The installURL parameter cannot be empty") ∧
    (∃ r, getFileHash (some a) url = Except.ok r) := by
  refine ⟨fun u => rfl, fun b => by simp [getFileHash], ?_⟩
  exact getFileHash_ok_of_ne a url h

theorem claim_C10_getFileHash_preconditions_witness :
    (getFileHash none "https://a.example/f.xpi" =
        Except.error "The addon parameter cannot be empty") ∧
    (getFileHash (some ⟨"g", "n", "s", AddonType.extension, none⟩) "" =
        Except.error "The installURL parameter cannot be empty") ∧
    (∃ r, getFileHash (some ⟨"g", "n", "s", AddonType.extension, none⟩)
        "https://a.example/f.xpi" = Except.ok r) :=
  ⟨(claim_C10_getFileHash_preconditions
      ⟨"g", "n", "s", AddonType.extension, none⟩ "https://a.example/f.xpi"
      (by decide)).1 "https://a.example/f.xpi",
   (claim_C10_getFileHash_preconditions
      ⟨"g", "n", "s", AddonType.extension, none⟩ "https://a.example/f.xpi"
      (by decide)).2.1 ⟨"g", "n", "s", AddonType.extension, none⟩,
   (claim_C10_getFileHash_preconditions
      ⟨"g", "n", "s", AddonType.extension, none⟩ "https://a.example/f.xpi"
      (by decide)).2.2⟩

/-- C2: with a current version and a non-empty install URL, `getFileHash`
returns the hash of the first file whose URL has the query-stripped install
URL as a prefix, and returns `undefined` after logging a warning when no
file matches; in that case `installExtension` still performs the
`InstallTrigger.install` call, passing the undefined hash. -/
theorem claim_C2_getFileHash_lookup (addon : Addon) (ver : AddonVersion)
    (installURL : String) (getIcon : Addon → String)
    (hv : addon.current_version = some ver)
    (hne : ver.files ≠ [])
    (hurl : installURL ≠ "") :
    (∀ fs1 f fs2, ver.files = fs1 ++ f :: fs2 →
        (∀ g ∈ fs1, jsStartsWith g.url (stripQueryString installURL) = false) →
        jsStartsWith f.url (stripQueryString installURL) = true →
        getFileHash (some addon) installURL =
          Except.ok { hash := some f.hash, warnings := [] }) ∧
    ((∀ g ∈ ver.files, jsStartsWith g.url (stripQueryString installURL) = false) →
        getFileHash (some addon) installURL =
          Except.ok { hash := none,
                      warnings := [noFileHashWarning addon installURL] }) ∧
    ((∀ g ∈ ver.files, jsStartsWith g.url (stripQueryString installURL) = false) →
        (installExtension true getIcon addon installURL).2 =
          Except.ok { prevented := true,
                      call := some { hash := none, iconURL := getIcon addon,
                                     url := installURL },
                      linkFallthrough := false }) := by
  have hmiss : (∀ g ∈ ver.files,
      jsStartsWith g.url (stripQueryString installURL) = false) →
      getFileHash (some addon) installURL =
        Except.ok { hash := none,
                    warnings := [noFileHashWarning addon installURL] } := by
    intro hall
    unfold getFileHash
    simp only [hurl, if_false]
    rw [hv]
    simp [findMatchingHash_none _ _ hall]
  refine ⟨?_, hmiss, ?_⟩
  · intro fs1 f fs2 hfiles h1 h2
    unfold getFileHash
    simp only [hurl, if_false]
    rw [hv]
    simp [hfiles, findMatchingHash_first _ _ _ _ h1 h2]
  · intro hall
    unfold installExtension
    simp only [Bool.not_true, Bool.false_eq_true, if_false]
    rw [hmiss hall]

theorem claim_C2_getFileHash_lookup_witness :
    getFileHash
        (some ⟨"g", "n", "s", AddonType.extension,
          some ⟨[⟨"https://a.example/f.xpi?src=api", "sha256:abc"⟩]⟩⟩)
        "https://a.example/f.xpi?src=homepage" =
      Except.ok { hash := some "sha256:abc", warnings := [] } :=
  (claim_C2_getFileHash_lookup
      ⟨"g", "n", "s", AddonType.extension,
        some ⟨[⟨"https://a.example/f.xpi?src=api", "sha256:abc"⟩]⟩⟩
      ⟨[⟨"https://a.example/f.xpi?src=api", "sha256:abc"⟩]⟩
      "https://a.example/f.xpi?src=homepage" (fun _ => "icon.png")
      rfl (by decide) (by decide)).1
    [] ⟨"https://a.example/f.xpi?src=api", "sha256:abc"⟩ [] rfl
    (by intro g hg; cases hg) (by decide)

/-- C8: a click on an ordinary-extension control always records "install
started"; with the `InstallTrigger` capability present the trigger is
invoked with the resolved hash, icon URL, and install URL and default
navigation is suppressed, and the completion callback records "install
succeeded" exactly on status code 0; without the capability no install
call is made and the click falls through as a plain link. -/
theorem claim_C8_extension_install_flow (getIcon : Addon → String)
    (addon : Addon) (href : String) (hasTrigger : Bool) (h : href ≠ "") :
    (installExtension hasTrigger getIcon addon href).1 =
        [TrackEvent.installStarted addon.name addon.type] ∧
    (hasTrigger = false →
        (installExtension hasTrigger getIcon addon href).2 =
          Except.ok { prevented := false, call := none,
                      linkFallthrough := true }) ∧
    (hasTrigger = true →
        ∃ hr, getFileHash (some addon) href = Except.ok hr ∧
          (installExtension hasTrigger getIcon addon href).2 =
            Except.ok { prevented := true,
                        call := some { hash := hr.hash,
                                       iconURL := getIcon addon, url := href },
                        linkFallthrough := false }) ∧
    (∀ s : Int, TrackEvent.installSucceeded addon.name addon.type ∈
        installTriggerCallback addon.name addon.type s ↔ s = 0) := by
  obtain ⟨hr, hok⟩ := getFileHash_ok_of_ne addon href h
  refine ⟨?_, ?_, ?_, ?_⟩
  · unfold installExtension
    cases hasTrigger with
    | false => rfl
    | true =>
      simp only [Bool.not_true, Bool.false_eq_true, if_false]
      rw [hok]
  · intro ht
    subst ht
    rfl
  · intro ht
    subst ht
    refine ⟨hr, hok, ?_⟩
    unfold installExtension
    simp only [Bool.not_true, Bool.false_eq_true, if_false]
    rw [hok]
  · intro s
    unfold installTriggerCallback
    by_cases hs : s = 0 <;> simp [hs]

theorem claim_C8_extension_install_flow_witness :
    (installExtension true (fun _ => "icon.png")
        ⟨"g", "n", "s", AddonType.extension, none⟩ "https://a.example/f.xpi").1 =
      [TrackEvent.installStarted "n" AddonType.extension] ∧
    (TrackEvent.installSucceeded "n" AddonType.extension ∈
        installTriggerCallback "n" AddonType.extension 0 ↔ (0 : Int) = 0) :=
  ⟨(claim_C8_extension_install_flow (fun _ => "icon.png")
      ⟨"g", "n", "s", AddonType.extension, none⟩ "https://a.example/f.xpi" true
      (by decide)).1,
   (claim_C8_extension_install_flow (fun _ => "icon.png")
      ⟨"g", "n", "s", AddonType.extension, none⟩ "https://a.example/f.xpi" true
      (by decide)).2.2.2 0⟩

/-- C4: whenever the install status is disabled/enabled/installed and the
compatibility check passes, any rendered control's click handler is the
uninstall handler (neutral button, href = the resolved install URL); on
the client a control is indeed rendered; and the uninstall handler
dispatches the uninstall action with the add-on's guid, name, type and the
control's href, preventing default navigation. -/
theorem claim_C4_uninstall_control (serverConfig : Bool)
    (getCompat : Addon → String → String → Bool)
    (clientApp userAgentInfo findURL : String) (addon : Addon)
    (status : InstallStatus)
    (hcompat : getCompat addon clientApp userAgentInfo = true)
    (hstatus : status ∈ [InstallStatus.DISABLED, InstallStatus.ENABLED,
      InstallStatus.INSTALLED]) :
    (∀ b, render serverConfig getCompat clientApp userAgentInfo findURL addon
          status = Rendered.button b →
        b.onClick = ClickHandler.uninstallH ∧ b.href = findURL ∧
          b.buttonType = "neutral") ∧
    (serverConfig = false →
        ∃ b, render serverConfig getCompat clientApp userAgentInfo findURL addon
            status = Rendered.button b ∧
          b.onClick = ClickHandler.uninstallH ∧ b.href = findURL) ∧
    (∀ href, uninstallAddon addon href =
        ({ guid := addon.guid, installURL := href, name := addon.name,
           type := addon.type }, true)) := by
  have hnotload : status ∉ [InstallStatus.DOWNLOADING, InstallStatus.ENABLING,
      InstallStatus.INSTALLING, InstallStatus.UNINSTALLING] := by
    simp only [List.mem_cons, List.not_mem_nil, or_false] at hstatus
    rcases hstatus with h | h | h <;> subst h <;> decide
  have hbp : ∀ _ : ¬(addon.type = AddonType.opensearch ∧ serverConfig = true),
      render serverConfig getCompat clientApp userAgentInfo findURL addon
          status =
        Rendered.button
          { buttonType := "neutral", href := findURL,
            onClick := ClickHandler.uninstallH, dataBrowsertheme := false,
            prependClientApp := none, prependLang := none,
            disabledStyle := false } := by
    intro hsrv
    simp [render, hsrv, hcompat, hstatus, hnotload]
  refine ⟨?_, ?_, fun href => rfl⟩
  · intro b hb
    by_cases hsrv : addon.type = AddonType.opensearch ∧ serverConfig = true
    · unfold render at hb
      rw [if_pos hsrv] at hb
      cases hb
    · rw [hbp hsrv] at hb
      cases hb
      exact ⟨rfl, rfl, rfl⟩
  · intro hsrv
    have hsrv2 : ¬(addon.type = AddonType.opensearch ∧ serverConfig = true) := by
      subst hsrv
      simp
    exact ⟨_, hbp hsrv2, rfl, rfl⟩

theorem claim_C4_uninstall_control_witness :
    ∃ b, render false (fun _ _ _ => true) "firefox" "ua" "https://a.example/f.xpi"
        ⟨"g", "n", "s", AddonType.extension, none⟩ InstallStatus.INSTALLED =
          Rendered.button b ∧
      b.onClick = ClickHandler.uninstallH ∧ b.href = "https://a.example/f.xpi" :=
  (claim_C4_uninstall_control false (fun _ _ _ => true) "firefox" "ua"
      "https://a.example/f.xpi" ⟨"g", "n", "s", AddonType.extension, none⟩
      InstallStatus.INSTALLED rfl (by decide)).2.1 rfl

/-- C7 counterexample: an incompatible add-on whose install status is
`DOWNLOADING` renders the loading animation, not a disabled control — so
the claim's "for every install status" fails. -/
theorem claim_C7_counterexample :
    render false (fun _ _ _ => false) "firefox" "ua" "https://a.example/f.xpi"
        ⟨"g", "n", "s", AddonType.extension, none⟩ InstallStatus.DOWNLOADING =
      Rendered.loading ∧
    isDisabledControl
        (render false (fun _ _ _ => false) "firefox" "ua"
          "https://a.example/f.xpi" ⟨"g", "n", "s", AddonType.extension, none⟩
          InstallStatus.DOWNLOADING) = false := by
  constructor <;> rfl

/-- C7 (amended): whenever the compatibility check reports the add-on
incompatible, the install status is not one of the four in-flight statuses
(which render the loading animation instead), and the opensearch
server-side suppression does not apply, the rendered control is a disabled
control: disabled styling and a click handler that only prevents the
default navigation. -/
theorem claim_C7_amended_incompatible_disabled (serverConfig : Bool)
    (getCompat : Addon → String → String → Bool)
    (clientApp userAgentInfo findURL : String) (addon : Addon)
    (status : InstallStatus)
    (hcompat : getCompat addon clientApp userAgentInfo = false)
    (hsrv : ¬(addon.type = AddonType.opensearch ∧ serverConfig = true))
    (hnotload : status ∉ [InstallStatus.DOWNLOADING, InstallStatus.ENABLING,
      InstallStatus.INSTALLING, InstallStatus.UNINSTALLING]) :
    render serverConfig getCompat clientApp userAgentInfo findURL addon
        status =
      Rendered.button
        { buttonType := "action", href := findURL,
          onClick := ClickHandler.preventDefaultOnly, dataBrowsertheme := false,
          prependClientApp := none, prependLang := none,
          disabledStyle := true } ∧
    isDisabledControl (render serverConfig getCompat clientApp userAgentInfo
        findURL addon status) = true := by
  have hr : render serverConfig getCompat clientApp userAgentInfo findURL addon
      status =
      Rendered.button
        { buttonType := "action", href := findURL,
          onClick := ClickHandler.preventDefaultOnly, dataBrowsertheme := false,
          prependClientApp := none, prependLang := none,
          disabledStyle := true } := by
    simp [render, hsrv, hcompat, hnotload]
  rw [hr]
  exact ⟨rfl, rfl⟩

theorem claim_C7_amended_incompatible_disabled_witness :
    render false (fun _ _ _ => false) "firefox" "ua" "https://a.example/f.xpi"
        ⟨"g", "n", "s", AddonType.extension, none⟩ InstallStatus.UNINSTALLED =
      Rendered.button
        { buttonType := "action", href := "https://a.example/f.xpi",
          onClick := ClickHandler.preventDefaultOnly, dataBrowsertheme := false,
          prependClientApp := none, prependLang := none,
          disabledStyle := true } :=
  (claim_C7_amended_incompatible_disabled false (fun _ _ _ => false) "firefox"
      "ua" "https://a.example/f.xpi" ⟨"g", "n", "s", AddonType.extension, none⟩
      InstallStatus.UNINSTALLED rfl (by decide) (by decide)).1

/-- C3 counterexample: with a persisted `null` description and an empty
string in the buffer's description field (name and slug equal and
non-blank), the code disables the submit button although the buffer's
description does not equal the persisted one, so "disabled exactly when
... the buffer's {name, slug, description} equal the persisted values"
fails. -/
theorem claim_C3_counterexample :
    isSubmitDisabled (some ⟨1, "user", "my-slug", "My Name", none, "en-US"⟩)
        false false ⟨none, false, some "", some "My Name", some "my-slug"⟩ =
      true ∧
    specSubmitDisabled (some ⟨1, "user", "my-slug", "My Name", none, "en-US"⟩)
        false false ⟨none, false, some "", some "My Name", some "my-slug"⟩ =
      false := by
  constructor <;> rfl

theorem string_length_eq_zero_iff (s : String) : s.length = 0 ↔ s = "" := by
  constructor
  · intro h
    have hd : s.data = [] := List.length_eq_zero.mp h
    exact String.ext (by simp [hd])
  · intro h
    subst h
    rfl

theorem isBlankField_iff (o : Option String) :
    isBlankField o = true ↔ (o = none ∨ ∃ s, o = some s ∧ jsTrim s = "") := by
  cases o with
  | none => simp [isBlankField]
  | some v =>
    simp only [isBlankField, decide_eq_true_eq, Option.some.injEq,
      reduceCtorEq, false_or]
    rw [string_length_eq_zero_iff]
    constructor
    · intro h
      exact ⟨v, rfl, h⟩
    · rintro ⟨s, hs, h⟩
      subst hs
      exact h

/-- C3 (amended): the submit button is disabled exactly when (no collection
is loaded and the form is not in create mode) OR a modification is in
flight OR the buffer's name and slug equal the persisted ones and its
description equals the persisted description — or the persisted description
is null and the buffer's description is null or the empty string — OR the
trimmed name is blank OR the trimmed slug is blank; changing any one of
name, slug, or description to a non-blank value different from the
persisted one (for the description: different and non-empty) enables it. -/
theorem claim_C3_amended_submit_enablement (collection : Option Collection)
    (creating modif : Bool) (st : ManagerState) :
    (isSubmitDisabled collection creating modif st = true ↔
      ((collection = none ∧ creating = false) ∨ modif = true ∨
        (∃ c, collection = some c ∧ st.name = some c.name ∧
          st.slug = some c.slug ∧
          (st.description = c.description ∨
            (c.description = none ∧
              (st.description = none ∨ st.description = some "")))) ∨
        (st.name = none ∨ ∃ s, st.name = some s ∧ jsTrim s = "") ∨
        (st.slug = none ∨ ∃ s, st.slug = some s ∧ jsTrim s = ""))) ∧
    (∀ c, collection = some c → modif = false →
      isBlankField st.name = false → isBlankField st.slug = false →
      (st.name ≠ some c.name ∨ st.slug ≠ some c.slug ∨
        (∃ d, st.description = some d ∧ jsTrim d ≠ "" ∧
          some d ≠ c.description)) →
      isSubmitDisabled collection creating modif st = false) := by
  constructor
  · unfold isSubmitDisabled formIsDisabled formIsUnchanged
    cases collection with
    | none =>
      simp only [isBlankField_iff, Bool.or_eq_true, Bool.and_eq_true,
        Bool.not_eq_true', Option.isNone_none, reduceCtorEq, false_and,
        false_or, exists_false, or_false, Option.some.injEq, true_and,
        decide_eq_true_eq, beq_iff_eq]
      simp [or_assoc]
    | some c =>
      simp only [isBlankField_iff, Bool.or_eq_true, Bool.and_eq_true,
        Bool.not_eq_true', Option.isNone_some, reduceCtorEq, false_and,
        false_or, exists_false, or_false, Option.some.injEq, true_and,
        exists_eq_left, decide_eq_true_eq, beq_iff_eq]
      simp [or_assoc, and_assoc]
  · intro c hc hmodif hbn hbs hdiff
    subst hc
    unfold isSubmitDisabled formIsDisabled formIsUnchanged
    have hunch :
        ((st.name == some c.name) && (st.slug == some c.slug) &&
          ((st.description == c.description) ||
            (c.description == none &&
              (st.description == none || st.description == some "")))) =
          false := by
      rcases hdiff with h | h | ⟨d, hd, hdt, hdne⟩
      · simp [h]
      · simp [h]
      · have hdesc1 : (st.description == c.description) = false := by
          rw [hd]
          simpa using hdne
        have hdne2 : d ≠ "" := by
          intro h0
          subst h0
          exact hdt rfl
        have hdesc2 : (st.description == some "") = false := by
          rw [hd]
          simpa using hdne2
        have hdesc3 : (st.description == (none : Option String)) = false := by
          rw [hd]
          simp
        simp [hdesc1, hdesc2, hdesc3]
    simp [hunch, hmodif, hbn, hbs]

theorem claim_C3_amended_submit_enablement_witness :
    isSubmitDisabled (some ⟨1, "user", "my-slug", "My Name", none, "en-US"⟩)
        false false
        ⟨none, false, some "New text", some "My Name", some "my-slug"⟩ =
      false :=
  (claim_C3_amended_submit_enablement
      (some ⟨1, "user", "my-slug", "My Name", none, "en-US"⟩) false false
      ⟨none, false, some "New text", some "My Name", some "my-slug"⟩).2
    ⟨1, "user", "my-slug", "My Name", none, "en-US"⟩ rfl rfl (by decide)
    (by decide)
    (Or.inr (Or.inr ⟨"New text", rfl, by decide, by decide⟩))

/-- C5: the edit buffer is reset to the collection's decoded values only
when the incoming collection's id differs from the current one; an
incoming collection with the same id — or no incoming collection — leaves
the in-progress edits (name, slug, description, customSlug) unchanged. -/
theorem claim_C5_reinit_only_on_id_change
    (decodeName : String → Option String)
    (decodeDescription : Option String → Option String)
    (oldProps newProps : ManagerProps) (st : ManagerState) :
    (∀ c, newProps.collection = some c →
        oldProps.collection.map (fun x => x.id) = some c.id →
        editFields
            (componentWillReceiveProps decodeName decodeDescription oldProps
              newProps st).1 =
          editFields st) ∧
    (newProps.collection = none →
        editFields
            (componentWillReceiveProps decodeName decodeDescription oldProps
              newProps st).1 =
          editFields st) ∧
    (∀ c, newProps.collection = some c →
        oldProps.collection.map (fun x => x.id) ≠ some c.id →
        editFields
            (componentWillReceiveProps decodeName decodeDescription oldProps
              newProps st).1 =
          editFields
            (propsToState decodeName decodeDescription
              newProps.collection)) := by
  refine ⟨?_, ?_, ?_⟩
  · intro c hc hid
    unfold componentWillReceiveProps
    rw [hc]
    simp only [hid, ne_eq, not_true_eq_false, if_false]
    by_cases hflag : oldProps.hasAddonBeenAdded = newProps.hasAddonBeenAdded <;>
      simp [hflag, editFields]
  · intro hc
    unfold componentWillReceiveProps
    rw [hc]
    by_cases hflag : oldProps.hasAddonBeenAdded = newProps.hasAddonBeenAdded <;>
      simp [hflag, editFields]
  · intro c hc hid
    unfold componentWillReceiveProps
    rw [hc]
    have hid2 : ¬(some c.id = oldProps.collection.map (fun x => x.id)) :=
      fun h => hid h.symm
    by_cases hflag : oldProps.hasAddonBeenAdded = newProps.hasAddonBeenAdded <;>
      simp [hflag, editFields, hid2]

theorem claim_C5_reinit_only_on_id_change_witness :
    editFields
        (componentWillReceiveProps (fun n => some n) (fun d => d)
          ⟨some ⟨1, "user", "old-slug", "Old", none, "en-US"⟩, false, false⟩
          ⟨some ⟨1, "user", "new-slug", "New", none, "en-US"⟩, false, false⟩
          ⟨none, true, some "draft", some "Draft name", some "draft-slug"⟩).1 =
      editFields
        ⟨none, true, some "draft", some "Draft name", some "draft-slug"⟩ :=
  (claim_C5_reinit_only_on_id_change (fun n => some n) (fun d => d)
      ⟨some ⟨1, "user", "old-slug", "Old", none, "en-US"⟩, false, false⟩
      ⟨some ⟨1, "user", "new-slug", "New", none, "en-US"⟩, false, false⟩
      ⟨none, true, some "draft", some "Draft name", some "draft-slug"⟩).1
    ⟨1, "user", "new-slug", "New", none, "en-US"⟩ rfl rfl

/-- C9: on cancel, create mode first navigates back one history entry; the
handler then fails fast when the collection, client-application context, or
site-language context is missing; otherwise it resets the buffer to the
persisted collection's values, clears the pending error, and navigates to
the collection's canonical URL with the current filters as query
parameters. -/
theorem claim_C9_cancel_flow (decodeName : String → Option String)
    (decodeDescription : Option String → Option String)
    (convert : String → String) (clientApp : Option String)
    (collection : Option Collection) (creating : Bool) (filters : String)
    (siteLang : Option String) :
    (creating = true →
        (onCancel decodeName decodeDescription convert clientApp collection
            creating filters siteLang).1.head? = some NavEffect.goBack) ∧
    ((collection = none ∨ clientApp = none ∨ siteLang = none) →
        ∃ msg, (onCancel decodeName decodeDescription convert clientApp
            collection creating filters siteLang).2 = Except.error msg) ∧
    (∀ c app lang, collection = some c → clientApp = some app →
        siteLang = some lang →
        (onCancel decodeName decodeDescription convert clientApp collection
            creating filters siteLang).2 =
          Except.ok (propsToState decodeName decodeDescription collection) ∧
        NavEffect.clearError ∈
          (onCancel decodeName decodeDescription convert clientApp collection
            creating filters siteLang).1 ∧
        NavEffect.push
            ("/" ++ lang ++ "/" ++ app ++ "/collections/" ++
              c.authorUsername ++ "/" ++ c.slug ++ "/") (convert filters) ∈
          (onCancel decodeName decodeDescription convert clientApp collection
            creating filters siteLang).1) := by
  refine ⟨?_, ?_, ?_⟩
  · intro hcr
    subst hcr
    unfold onCancel
    cases collection with
    | none => rfl
    | some c =>
      cases clientApp with
      | none => rfl
      | some app =>
        cases siteLang with
        | none => rfl
        | some lang => rfl
  · intro hmiss
    unfold onCancel
    rcases hmiss with h | h | h
    · subst h
      exact ⟨_, rfl⟩
    · cases collection with
      | none => exact ⟨_, rfl⟩
      | some c =>
        subst h
        exact ⟨_, rfl⟩
    · cases collection with
      | none => exact ⟨_, rfl⟩
      | some c =>
        cases clientApp with
        | none => exact ⟨_, rfl⟩
        | some app =>
          subst h
          exact ⟨_, rfl⟩
  · intro c app lang hc happ hlang
    subst hc
    subst happ
    subst hlang
    unfold onCancel
    cases creating <;> simp

theorem claim_C9_cancel_flow_witness :
    (onCancel (fun n => some n) (fun d => d) (fun f => f) (some "firefox")
        (some ⟨1, "user", "my-slug", "My Name", none, "en-US"⟩) true
        "page=2" (some "en-US")).1.head? = some NavEffect.goBack ∧
    NavEffect.push "/en-US/firefox/collections/user/my-slug/" "page=2" ∈
      (onCancel (fun n => some n) (fun d => d) (fun f => f) (some "firefox")
        (some ⟨1, "user", "my-slug", "My Name", none, "en-US"⟩) true
        "page=2" (some "en-US")).1 :=
  ⟨(claim_C9_cancel_flow (fun n => some n) (fun d => d) (fun f => f)
      (some "firefox") (some ⟨1, "user", "my-slug", "My Name", none, "en-US"⟩)
      true "page=2" (some "en-US")).1 rfl,
   ((claim_C9_cancel_flow (fun n => some n) (fun d => d) (fun f => f)
      (some "firefox") (some ⟨1, "user", "my-slug", "My Name", none, "en-US"⟩)
      true "page=2" (some "en-US")).2.2
      ⟨1, "user", "my-slug", "My Name", none, "en-US"⟩ "firefox" "en-US"
      rfl rfl rfl).2.2⟩

theorem pendingIds_step_subset (decodeName : String → Option String)
    (decodeDescription : Option String → Option String) (w : World)
    (e : MEvent) (i : Nat) (hi : i ∈ pendingIds (step decodeName
      decodeDescription w e)) :
    i ∈ pendingIds w ∨ i = w.nextId := by
  cases e with
  | receiveProps p =>
    by_cases hm : w.mounted
    · simp only [step, hm, if_true] at hi
      by_cases hs : (componentWillReceiveProps decodeName decodeDescription
          w.props p w.st).2
      · simp only [hs, if_true, pendingIds, List.map_append] at hi
        rcases List.mem_append.mp hi with h | h
        · exact Or.inl h
        · simp at h
          exact Or.inr h
      · simp only [hs, if_false] at hi
        exact Or.inl hi
    · simp only [step, hm, if_false] at hi
      exact Or.inl hi
  | fire j =>
    by_cases hp : w.timers.any (fun t => t.1 = j)
    · simp only [step, hp, if_true, pendingIds, List.mem_map] at hi
      obtain ⟨t, ht, hti⟩ := hi
      have := List.mem_filter.mp ht
      exact Or.inl (List.mem_map.mpr ⟨t, this.1, hti⟩)
    · simp only [step, hp, if_false] at hi
      exact Or.inl hi
  | unmount =>
    by_cases hm : w.mounted
    · simp only [step, hm, if_true] at hi
      cases hto : w.timeoutId with
      | none =>
        simp only [hto] at hi
        exact Or.inl hi
      | some k =>
        simp only [hto, pendingIds, List.mem_map] at hi
        obtain ⟨t, ht, hti⟩ := hi
        have := List.mem_filter.mp ht
        exact Or.inl (List.mem_map.mpr ⟨t, this.1, hti⟩)
    · simp only [step, hm, if_false] at hi
      exact Or.inl hi

theorem invoked_step_sub (decodeName : String → Option String)
    (decodeDescription : Option String → Option String) (w : World)
    (e : MEvent) (i : Nat)
    (hi : i ∈ (step decodeName decodeDescription w e).invoked) :
    i ∈ w.invoked ∨ (i ∈ pendingIds w ∧ e = MEvent.fire i) := by
  cases e with
  | receiveProps p =>
    by_cases hm : w.mounted
    · simp only [step, hm, if_true] at hi
      by_cases hs : (componentWillReceiveProps decodeName decodeDescription
          w.props p w.st).2
      · simp only [hs, if_true] at hi
        exact Or.inl hi
      · simp only [hs, if_false] at hi
        exact Or.inl hi
    · simp only [step, hm, if_false] at hi
      exact Or.inl hi
  | fire j =>
    by_cases hp : w.timers.any (fun t => t.1 = j)
    · simp only [step, hp, if_true, List.mem_append, List.mem_singleton] at hi
      rcases hi with h | h
      · exact Or.inl h
      · subst h
        obtain ⟨t, ht, htj⟩ := List.any_eq_true.mp hp
        right
        refine ⟨List.mem_map.mpr ⟨t, ht, ?_⟩, rfl⟩
        simpa using htj
    · simp only [step, hp, if_false] at hi
      exact Or.inl hi
  | unmount =>
    by_cases hm : w.mounted
    · simp only [step, hm, if_true] at hi
      exact Or.inl hi
    · simp only [step, hm, if_false] at hi
      exact Or.inl hi

theorem nextId_step_le (decodeName : String → Option String)
    (decodeDescription : Option String → Option String) (w : World)
    (e : MEvent) :
    w.nextId ≤ (step decodeName decodeDescription w e).nextId := by
  cases e with
  | receiveProps p =>
    by_cases hm : w.mounted
    · simp only [step, hm, if_true]
      by_cases hs : (componentWillReceiveProps decodeName decodeDescription
          w.props p w.st).2
      · simp [hs]
      · simp [hs]
    · simp [step, hm]
  | fire j =>
    by_cases hp : w.timers.any (fun t => t.1 = j)
    · simp [step, hp]
    · simp [step, hp]
  | unmount =>
    by_cases hm : w.mounted
    · simp only [step, hm, if_true]
      cases w.timeoutId <;> simp
    · simp [step, hm]

theorem wf_step (decodeName : String → Option String)
    (decodeDescription : Option String → Option String) (w : World)
    (e : MEvent) (hw : WF w) :
    WF (step decodeName decodeDescription w e) := by
  cases e with
  | receiveProps p =>
    by_cases hm : w.mounted
    · by_cases hs : (componentWillReceiveProps decodeName decodeDescription
          w.props p w.st).2
      · have hstep : step decodeName decodeDescription w
            (MEvent.receiveProps p) =
            { w with
              props := p
              st := (componentWillReceiveProps decodeName decodeDescription
                w.props p w.st).1
              timers := w.timers ++ [(w.nextId, MESSAGE_RESET_TIME)]
              timeoutId := some w.nextId
              nextId := w.nextId + 1 } := by
          simp [step, hm, hs]
        rw [hstep]
        refine ⟨?_, ?_, hw.invoked_nodup, ?_⟩
        · intro i hi
          simp only [pendingIds, List.map_append, List.map_cons, List.map_nil,
            List.mem_append, List.mem_singleton] at hi
          rcases hi with h | h
          · exact Nat.lt_succ_of_lt (hw.pending_lt i h)
          · subst h
            exact Nat.lt_succ_self _
        · intro i hi
          exact Nat.lt_succ_of_lt (hw.invoked_lt i hi)
        · intro i hi
          simp only [pendingIds, List.map_append, List.map_cons, List.map_nil,
            List.mem_append, List.mem_singleton] at hi
          rcases hi with h | h
          · exact hw.pending_not_invoked i h
          · subst h
            intro hmem
            exact absurd (hw.invoked_lt _ hmem) (Nat.lt_irrefl _)
      · have hstep : step decodeName decodeDescription w
            (MEvent.receiveProps p) =
            { w with
              props := p
              st := (componentWillReceiveProps decodeName decodeDescription
                w.props p w.st).1 } := by
          simp [step, hm, hs]
        rw [hstep]
        exact ⟨hw.pending_lt, hw.invoked_lt, hw.invoked_nodup,
          hw.pending_not_invoked⟩
    · have hstep : step decodeName decodeDescription w
          (MEvent.receiveProps p) = w := by
        simp [step, hm]
      rw [hstep]
      exact hw
  | fire j =>
    by_cases hp : w.timers.any (fun t => t.1 = j)
    · have hstep : step decodeName decodeDescription w (MEvent.fire j) =
          { w with
            timers := w.timers.filter (fun t => t.1 ≠ j)
            invoked := w.invoked ++ [j]
            st := if w.mounted then { w.st with addonAddedStatus := none }
              else w.st } := by
        simp [step, hp]
      have hjp : j ∈ pendingIds w := by
        obtain ⟨t, ht, htj⟩ := List.any_eq_true.mp hp
        exact List.mem_map.mpr ⟨t, ht, by simpa using htj⟩
      rw [hstep]
      refine ⟨?_, ?_, ?_, ?_⟩
      · intro i hi
        simp only [pendingIds, List.mem_map] at hi
        obtain ⟨t, ht, hti⟩ := hi
        exact hw.pending_lt i
          (List.mem_map.mpr ⟨t, (List.mem_filter.mp ht).1, hti⟩)
      · intro i hi
        rcases List.mem_append.mp hi with h | h
        · exact hw.invoked_lt i h
        · simp only [List.mem_singleton] at h
          subst h
          exact hw.pending_lt i hjp
      · refine List.Nodup.append hw.invoked_nodup (List.nodup_singleton j) ?_
        intro i hi hj
        simp only [List.mem_singleton] at hj
        subst hj
        exact hw.pending_not_invoked i hjp hi
      · intro i hi
        simp only [pendingIds, List.mem_map] at hi
        obtain ⟨t, ht, hti⟩ := hi
        have hmf := List.mem_filter.mp ht
        have hine : i ≠ j := by
          subst hti
          simpa using hmf.2
        intro hmem
        rcases List.mem_append.mp hmem with h | h
        · exact hw.pending_not_invoked i
            (List.mem_map.mpr ⟨t, hmf.1, hti⟩) h
        · simp only [List.mem_singleton] at h
          exact hine h
    · have hstep : step decodeName decodeDescription w (MEvent.fire j) = w := by
        simp [step, hp]
      rw [hstep]
      exact hw
  | unmount =>
    by_cases hm : w.mounted
    · have hstep : step decodeName decodeDescription w MEvent.unmount =
          { w with
            mounted := false
            timers :=
              match w.timeoutId with
              | some i => w.timers.filter (fun t => t.1 ≠ i)
              | none => w.timers } := by
        simp [step, hm]
      rw [hstep]
      cases hto : w.timeoutId with
      | none =>
        exact ⟨by simpa [pendingIds, hto] using hw.pending_lt, hw.invoked_lt,
          hw.invoked_nodup, by simpa [pendingIds, hto] using
            hw.pending_not_invoked⟩
      | some k =>
        refine ⟨?_, hw.invoked_lt, hw.invoked_nodup, ?_⟩
        · intro i hi
          simp only [pendingIds, hto, List.mem_map] at hi
          obtain ⟨t, ht, hti⟩ := hi
          exact hw.pending_lt i
            (List.mem_map.mpr ⟨t, (List.mem_filter.mp ht).1, hti⟩)
        · intro i hi
          simp only [pendingIds, hto, List.mem_map] at hi
          obtain ⟨t, ht, hti⟩ := hi
          exact hw.pending_not_invoked i
            (List.mem_map.mpr ⟨t, (List.mem_filter.mp ht).1, hti⟩)
    · have hstep : step decodeName decodeDescription w MEvent.unmount = w := by
        simp [step, hm]
      rw [hstep]
      exact hw

theorem wf_runTrace (decodeName : String → Option String)
    (decodeDescription : Option String → Option String) (w : World)
    (tr : List MEvent) (hw : WF w) :
    WF (runTrace decodeName decodeDescription w tr) := by
  induction tr generalizing w with
  | nil => exact hw
  | cons e es ih =>
    exact ih _ (wf_step decodeName decodeDescription w e hw)

/-- A timeout id that is below the id counter, no longer pending, and not
yet invoked stays that way: no future trace ever invokes it. -/
theorem dead_id_never_invoked (decodeName : String → Option String)
    (decodeDescription : Option String → Option String) (w : World)
    (tr : List MEvent) (i : Nat) (hlt : i < w.nextId)
    (hnp : i ∉ pendingIds w) (hni : i ∉ w.invoked) :
    i ∉ (runTrace decodeName decodeDescription w tr).invoked := by
  induction tr generalizing w with
  | nil => exact hni
  | cons e es ih =>
    have hlt2 : i < (step decodeName decodeDescription w e).nextId :=
      Nat.lt_of_lt_of_le hlt (nextId_step_le decodeName decodeDescription w e)
    have hnp2 : i ∉ pendingIds (step decodeName decodeDescription w e) := by
      intro hmem
      rcases pendingIds_step_subset decodeName decodeDescription w e i hmem
        with h | h
      · exact hnp h
      · subst h
        exact absurd hlt (Nat.lt_irrefl _)
    have hni2 : i ∉ (step decodeName decodeDescription w e).invoked := by
      intro hmem
      rcases invoked_step_sub decodeName decodeDescription w e i hmem
        with h | h
      · exact hni h
      · exact hnp h.1
    exact ih _ hlt2 hnp2 hni2

/-- C6 counterexample: after two "added" transitions the component's
`this.timeout` only remembers the second timeout id, so tearing the
component down cancels only that one; the callback scheduled by the first
transition is still pending after unmount and the host then invokes it —
contradicting "if the component is torn down before it fires, the
scheduled callback is cancelled and never invoked". -/
theorem claim_C6_counterexample :
    (runTrace (fun n => some n) (fun d => d)
        ⟨⟨none, true, false⟩, ⟨none, false, none, none, none⟩, none, true,
          [], 0, []⟩
        [MEvent.receiveProps ⟨none, true, true⟩,
         MEvent.receiveProps ⟨none, true, false⟩,
         MEvent.receiveProps ⟨none, true, true⟩,
         MEvent.unmount]).mounted = false ∧
    (0, MESSAGE_RESET_TIME) ∈
      (runTrace (fun n => some n) (fun d => d)
        ⟨⟨none, true, false⟩, ⟨none, false, none, none, none⟩, none, true,
          [], 0, []⟩
        [MEvent.receiveProps ⟨none, true, true⟩,
         MEvent.receiveProps ⟨none, true, false⟩,
         MEvent.receiveProps ⟨none, true, true⟩,
         MEvent.unmount]).timers ∧
    (runTrace (fun n => some n) (fun d => d)
        ⟨⟨none, true, false⟩, ⟨none, false, none, none, none⟩, none, true,
          [], 0, []⟩
        [MEvent.receiveProps ⟨none, true, true⟩,
         MEvent.receiveProps ⟨none, true, false⟩,
         MEvent.receiveProps ⟨none, true, true⟩,
         MEvent.unmount,
         MEvent.fire 0]).invoked = [0] := by
  refine ⟨rfl, ?_, rfl⟩
  decide

/-- C6 (amended): on every false-to-true `hasAddonBeenAdded` transition a
one-shot timer of exactly `MESSAGE_RESET_TIME = 5000` time units is
scheduled whose callback resets the added-status to null; each scheduled
callback fires at most once; and if the component is torn down before the
timer fires, the most recently scheduled callback — the one remembered in
`this.timeout` — is cancelled and never invoked (callbacks superseded by a
later transition are not cancelled). -/
theorem claim_C6_amended_timer (decodeName : String → Option String)
    (decodeDescription : Option String → Option String) (w : World)
    (p : ManagerProps) (hw : WF w) (hm : w.mounted = true)
    (hold : w.props.hasAddonBeenAdded = false)
    (hnew : p.hasAddonBeenAdded = true) :
    ((w.nextId, MESSAGE_RESET_TIME) ∈
        (step decodeName decodeDescription w (MEvent.receiveProps p)).timers ∧
      (step decodeName decodeDescription w
          (MEvent.receiveProps p)).timeoutId = some w.nextId ∧
      MESSAGE_RESET_TIME = 5000) ∧
    (step decodeName decodeDescription
        (step decodeName decodeDescription w (MEvent.receiveProps p))
        (MEvent.fire w.nextId)).st.addonAddedStatus = none ∧
    (∀ tr, ((runTrace decodeName decodeDescription
        (step decodeName decodeDescription w (MEvent.receiveProps p))
        tr).invoked.count w.nextId) ≤ 1) ∧
    (∀ tr, w.nextId ∉
        (runTrace decodeName decodeDescription
          (step decodeName decodeDescription
            (step decodeName decodeDescription w (MEvent.receiveProps p))
            MEvent.unmount)
          tr).invoked) := by
  have hsched : (componentWillReceiveProps decodeName decodeDescription
      w.props p w.st).2 = true := by
    unfold componentWillReceiveProps
    simp [hold, hnew]
  have hstep : step decodeName decodeDescription w (MEvent.receiveProps p) =
      { w with
        props := p
        st := (componentWillReceiveProps decodeName decodeDescription
          w.props p w.st).1
        timers := w.timers ++ [(w.nextId, MESSAGE_RESET_TIME)]
        timeoutId := some w.nextId
        nextId := w.nextId + 1 } := by
    simp [step, hm, hsched]
  have hw1 : WF (step decodeName decodeDescription w (MEvent.receiveProps p)) :=
    wf_step decodeName decodeDescription w _ hw
  refine ⟨⟨?_, ?_, rfl⟩, ?_, ?_, ?_⟩
  · rw [hstep]
    simp
  · rw [hstep]
  · have hfireable : ((w.timers ++ [(w.nextId, MESSAGE_RESET_TIME)]).any
        (fun t => t.1 = w.nextId)) = true := by
      simp
    rw [hstep]
    simp [step, hfireable, hm]
  · intro tr
    have hwf2 := wf_runTrace decodeName decodeDescription _ tr hw1
    exact List.nodup_iff_count_le_one.mp hwf2.invoked_nodup w.nextId
  · intro tr
    have hunm : step decodeName decodeDescription
        (step decodeName decodeDescription w (MEvent.receiveProps p))
        MEvent.unmount =
        { w with
          props := p
          st := (componentWillReceiveProps decodeName decodeDescription
            w.props p w.st).1
          timers := (w.timers ++
            [(w.nextId, MESSAGE_RESET_TIME)]).filter
              (fun t => t.1 ≠ w.nextId)
          timeoutId := some w.nextId
          nextId := w.nextId + 1
          mounted := false } := by
      rw [hstep]
      simp [step, hm]
    rw [hunm]
    apply dead_id_never_invoked
    · exact Nat.lt_succ_self _
    · intro hmem
      simp only [pendingIds, List.mem_map] at hmem
      obtain ⟨t, ht, hti⟩ := hmem
      have h2 := (List.mem_filter.mp ht).2
      simp only [ne_eq, decide_not, Bool.not_eq_true', decide_eq_false_iff_not]
        at h2
      exact h2 hti
    · intro hmem
      exact absurd (hw.invoked_lt _ hmem) (Nat.lt_irrefl _)

theorem claim_C6_amended_timer_witness :
    (0, MESSAGE_RESET_TIME) ∈
      (step (fun n => some n) (fun d => d)
        ⟨⟨none, true, false⟩, ⟨none, false, none, none, none⟩, none, true,
          [], 0, []⟩
        (MEvent.receiveProps ⟨none, true, true⟩)).timers ∧
    MESSAGE_RESET_TIME = 5000 :=
  ⟨(claim_C6_amended_timer (fun n => some n) (fun d => d)
      ⟨⟨none, true, false⟩, ⟨none, false, none, none, none⟩, none, true,
        [], 0, []⟩
      ⟨none, true, true⟩
      ⟨by simp [pendingIds], by simp, List.nodup_nil, by simp [pendingIds]⟩
      rfl rfl rfl).1.1,
   (claim_C6_amended_timer (fun n => some n) (fun d => d)
      ⟨⟨none, true, false⟩, ⟨none, false, none, none, none⟩, none, true,
        [], 0, []⟩
      ⟨none, true, true⟩
      ⟨by simp [pendingIds], by simp, List.nodup_nil, by simp [pendingIds]⟩
      rfl rfl rfl).1.2.2⟩
